import Mathlib

/-!
Verification of the `sequel` filter-combinator library (`src/filter.ts`).

The library builds boolean filter trees over an opaque element type and
evaluates them with `QueryFilterImpl.apply`:

* a child of a node is either a bare leaf predicate (`QueryFilterPredicate`,
  an `Element → Bool` function) or a nested composite filter — the union type
  `AnyFilter` of the source;
* a composite node carries a chain operator (`Intersection` or `Union`), a
  `negated` flag, the ordered list of children, and an `async` flag;
* `apply` reduces the children left-to-right with JavaScript `&&` (seed
  `true`) for `Intersection` or `||` (seed `false`) for `Union`, then inverts
  the result when `negated` is set.  JavaScript `&&`/`||` short-circuit, so a
  child is not evaluated once the accumulator is already decided; this is
  modelled faithfully where evaluation effects matter (invocation counts,
  thrown errors).
-/

namespace Sequel

/-- The operator applied to a series of predicates: logical AND
(intersection) or OR (union).  Mirrors `enum QueryFilterChainOperator`. -/
inductive QueryFilterChainOperator : Type where
  | Intersection : QueryFilterChainOperator
  | Union : QueryFilterChainOperator
deriving DecidableEq, Repr

/-- The union type `AnyFilter = QueryFilter | QueryFilterPredicate` of the
source, with composite filters (`QueryFilterImpl`) represented inline: a
child is either a bare predicate function or a composite node holding the
constructor fields `_chainOp`, `_negated`, `_filters`, `_async`. -/
inductive AnyFilter (E : Type) : Type where
  | pred : (E → Bool) → AnyFilter E
  | filt : QueryFilterChainOperator → Bool → List (AnyFilter E) → Bool → AnyFilter E

namespace AnyFilter

mutual

/-- `QueryFilterImpl.apply`, together with the two `reduce` loops it runs.
`applyFoldAnd` is `filters.reduce((acc, fn) => acc && (isPredicate fn ? fn(el)
: fn.apply(el)), true)`; `applyFoldOr` is the `||` reduce seeded with `false`.
A bare predicate child is invoked directly (`fn(el)`), a composite child
recursively (`fn.apply(el)`); the `async` field is not read. -/
def apply {E : Type} : AnyFilter E → E → Bool
  | .pred p, el => p el
  | .filt op neg fs _a, el =>
    let provisional :=
      match op with
      | .Intersection => applyFoldAnd fs el true
      | .Union => applyFoldOr fs el false
    if neg then !provisional else provisional

/-- The `Intersection` reduce loop of `apply` (seed passed as `acc`). -/
def applyFoldAnd {E : Type} : List (AnyFilter E) → E → Bool → Bool
  | [], _, acc => acc
  | fn :: rest, el, acc => applyFoldAnd rest el (acc && apply fn el)

/-- The `Union` reduce loop of `apply` (seed passed as `acc`). -/
def applyFoldOr {E : Type} : List (AnyFilter E) → E → Bool → Bool
  | [], _, acc => acc
  | fn :: rest, el, acc => applyFoldOr rest el (acc || apply fn el)

end

end AnyFilter

/-- `filter(predicate)`: a single-predicate Intersection node
(`new QueryFilterImpl(Intersection, false, [predicate])`; `_async` defaults
to `false`). -/
def filter {E : Type} (predicate : E → Bool) : AnyFilter E :=
  .filt .Intersection false [.pred predicate] false

/-- `and(...filters)`: `new QueryFilterImpl(Intersection, false, filters)`. -/
def and {E : Type} (filters : List (AnyFilter E)) : AnyFilter E :=
  .filt .Intersection false filters false

/-- `or(...filters)`: `new QueryFilterImpl(Union, false, filters)`. -/
def or {E : Type} (filters : List (AnyFilter E)) : AnyFilter E :=
  .filt .Union false filters false

/-- `not(filter)`: `new QueryFilterImpl(Intersection, true, [filter])`. -/
def not {E : Type} (f : AnyFilter E) : AnyFilter E :=
  .filt .Intersection true [f] false

/-- `identity`: `filter(() => true)`. -/
def identity {E : Type} : AnyFilter E :=
  filter (fun _ => true)

namespace AnyFilter

mutual

/-- Instrumented evaluation: the result of `apply` paired with the number of
leaf-predicate invocations the call performs.  JavaScript `&&` and `||`
short-circuit, so inside the reduce callback `acc && fn(el)` the child `fn`
is not invoked when `acc` is already `false` (dually `acc || fn(el)` skips
`fn` when `acc` is `true`); the instrumented folds reproduce exactly that. -/
def applyTrace {E : Type} : AnyFilter E → E → Bool × Nat
  | .pred p, el => (p el, 1)
  | .filt op neg fs _a, el =>
    let pr :=
      match op with
      | .Intersection => traceFoldAnd fs el true
      | .Union => traceFoldOr fs el false
    ((if neg then !pr.1 else pr.1), pr.2)

/-- Instrumented `Intersection` reduce: when the accumulator is `false` the
child is skipped (JavaScript `&&` short-circuit) and contributes no
invocations. -/
def traceFoldAnd {E : Type} : List (AnyFilter E) → E → Bool → Bool × Nat
  | [], _, acc => (acc, 0)
  | fn :: rest, el, acc =>
    if acc then
      let r := applyTrace fn el
      let k := traceFoldAnd rest el r.1
      (k.1, r.2 + k.2)
    else
      traceFoldAnd rest el false

/-- Instrumented `Union` reduce: when the accumulator is `true` the child is
skipped (JavaScript `||` short-circuit) and contributes no invocations. -/
def traceFoldOr {E : Type} : List (AnyFilter E) → E → Bool → Bool × Nat
  | [], _, acc => (acc, 0)
  | fn :: rest, el, acc =>
    if acc then
      traceFoldOr rest el true
    else
      let r := applyTrace fn el
      let k := traceFoldOr rest el r.1
      (k.1, r.2 + k.2)

end

mutual

/-- The number of leaf predicates contained in a filter tree (counting each
occurrence: a sub-tree appearing twice contributes twice). -/
def numLeaves {E : Type} : AnyFilter E → Nat
  | .pred _ => 1
  | .filt _ _ fs _ => numLeavesList fs

/-- Sum of `numLeaves` over a child list. -/
def numLeavesList {E : Type} : List (AnyFilter E) → Nat
  | [] => 0
  | f :: rest => numLeaves f + numLeavesList rest

end

mutual

/-- Rewrites every `async` constructor field in the tree to `b`, leaving the
chain operator, negation flag, predicates and child structure unchanged.
Two trees are identical except for their async flags exactly when they agree
after `mapAsync false`. -/
def mapAsync {E : Type} (b : Bool) : AnyFilter E → AnyFilter E
  | .pred p => .pred p
  | .filt op neg fs _a => .filt op neg (mapAsyncList b fs) b

/-- `mapAsync` over a child list. -/
def mapAsyncList {E : Type} (b : Bool) : List (AnyFilter E) → List (AnyFilter E)
  | [] => []
  | f :: rest => mapAsync b f :: mapAsyncList b rest

end

end AnyFilter

/-- Fallible filter trees: identical to `AnyFilter` except that a leaf
predicate may also raise an error (`(el) => boolean` in a language where the
call can throw), modelled as `E → Except ε Bool`. -/
inductive AnyFilterE (ε E : Type) : Type where
  | pred : (E → Except ε Bool) → AnyFilterE ε E
  | filt : QueryFilterChainOperator → Bool → List (AnyFilterE ε E) → Bool → AnyFilterE ε E

namespace AnyFilterE

mutual

/-- `QueryFilterImpl.apply` over fallible leaf predicates: a thrown error
aborts the reduce and propagates out unmodified; the engine itself performs
only boolean aggregation and raises nothing of its own.  Short-circuiting is
kept: a child skipped by `&&`/`||` is not invoked, hence cannot throw. -/
def applyE {ε E : Type} : AnyFilterE ε E → E → Except ε Bool
  | .pred p, el => p el
  | .filt op neg fs _a, el =>
    match
      (match op with
       | .Intersection => excFoldAnd fs el true
       | .Union => excFoldOr fs el false) with
    | .error e => .error e
    | .ok provisional => .ok (if neg then !provisional else provisional)

/-- Fallible `Intersection` reduce: with accumulator `true` the child result
(or its error) becomes the new accumulator; with accumulator `false` the
child is skipped. -/
def excFoldAnd {ε E : Type} : List (AnyFilterE ε E) → E → Bool → Except ε Bool
  | [], _, acc => .ok acc
  | fn :: rest, el, acc =>
    if acc then
      match applyE fn el with
      | .error e => .error e
      | .ok b => excFoldAnd rest el b
    else
      excFoldAnd rest el false

/-- Fallible `Union` reduce: with accumulator `false` the child result (or
its error) becomes the new accumulator; with accumulator `true` the child is
skipped. -/
def excFoldOr {ε E : Type} : List (AnyFilterE ε E) → E → Bool → Except ε Bool
  | [], _, acc => .ok acc
  | fn :: rest, el, acc =>
    if acc then
      excFoldOr rest el true
    else
      match applyE fn el with
      | .error e => .error e
      | .ok b => excFoldOr rest el b

end

end AnyFilterE

/-- `LeafIn p g`: the leaf predicate `p` occurs somewhere in the fallible
filter tree `g`. -/
inductive LeafIn {ε E : Type} (p : E → Except ε Bool) : AnyFilterE ε E → Prop where
  | here : LeafIn p (.pred p)
  | child {op : QueryFilterChainOperator} {neg : Bool} {fs : List (AnyFilterE ε E)}
      {a : Bool} {f : AnyFilterE ε E} :
      f ∈ fs → LeafIn p f → LeafIn p (.filt op neg fs a)

mutual

/-- Embeds an error-free filter tree into the fallible world: every leaf
predicate `p` becomes the never-throwing `fun el => .ok (p el)`. -/
def liftE {ε E : Type} : AnyFilter E → AnyFilterE ε E
  | .pred p => .pred (fun el => .ok (p el))
  | .filt op neg fs a => .filt op neg (liftEList fs) a

/-- `liftE` over a child list. -/
def liftEList {ε E : Type} : List (AnyFilter E) → List (AnyFilterE ε E)
  | [] => []
  | f :: rest => liftE f :: liftEList rest

end

end Sequel

namespace Sequel

/-- The `Intersection` reduce with accumulator `false` stays `false`:
`false && b = false` for every child result. -/
theorem applyFoldAnd_false {E : Type} (fs : List (AnyFilter E)) (el : E) :
    AnyFilter.applyFoldAnd fs el false = false := by
  induction fs with
  | nil => rfl
  | cons fn rest ih => simpa [AnyFilter.applyFoldAnd] using ih

/-- The `Union` reduce with accumulator `true` stays `true`. -/
theorem applyFoldOr_true {E : Type} (fs : List (AnyFilter E)) (el : E) :
    AnyFilter.applyFoldOr fs el true = true := by
  induction fs with
  | nil => rfl
  | cons fn rest ih => simpa [AnyFilter.applyFoldOr] using ih

/-- The `Intersection` reduce loop is the left fold of `&&` over the
children's results. -/
theorem applyFoldAnd_eq_foldl {E : Type} (fs : List (AnyFilter E)) (el : E) (acc : Bool) :
    AnyFilter.applyFoldAnd fs el acc
      = fs.foldl (fun a fn => a && fn.apply el) acc := by
  induction fs generalizing acc with
  | nil => rfl
  | cons fn rest ih => simp [AnyFilter.applyFoldAnd, List.foldl, ih]

/-- The `Union` reduce loop is the left fold of `||` over the children's
results. -/
theorem applyFoldOr_eq_foldl {E : Type} (fs : List (AnyFilter E)) (el : E) (acc : Bool) :
    AnyFilter.applyFoldOr fs el acc
      = fs.foldl (fun a fn => a || fn.apply el) acc := by
  induction fs generalizing acc with
  | nil => rfl
  | cons fn rest ih => simp [AnyFilter.applyFoldOr, List.foldl, ih]

mutual

/-- The boolean component of the instrumented evaluation agrees with
`apply`: short-circuiting does not change the aggregated result. -/
theorem applyTrace_fst {E : Type} : ∀ (f : AnyFilter E) (x : E),
    (AnyFilter.applyTrace f x).1 = f.apply x
  | .pred _, _ => rfl
  | .filt op neg fs _a, x => by
    cases op <;> cases neg <;>
      simp [AnyFilter.applyTrace, AnyFilter.apply,
        traceFoldAnd_fst fs x true, traceFoldOr_fst fs x false]

/-- Instrumented and plain `Intersection` reduces agree on the boolean. -/
theorem traceFoldAnd_fst {E : Type} : ∀ (fs : List (AnyFilter E)) (x : E) (acc : Bool),
    (AnyFilter.traceFoldAnd fs x acc).1 = AnyFilter.applyFoldAnd fs x acc
  | [], _, _ => rfl
  | fn :: rest, x, acc => by
    cases acc with
    | false =>
      simpa [AnyFilter.traceFoldAnd, AnyFilter.applyFoldAnd] using
        traceFoldAnd_fst rest x false
    | true =>
      simpa [AnyFilter.traceFoldAnd, AnyFilter.applyFoldAnd, applyTrace_fst fn x] using
        traceFoldAnd_fst rest x (fn.apply x)

/-- Instrumented and plain `Union` reduces agree on the boolean. -/
theorem traceFoldOr_fst {E : Type} : ∀ (fs : List (AnyFilter E)) (x : E) (acc : Bool),
    (AnyFilter.traceFoldOr fs x acc).1 = AnyFilter.applyFoldOr fs x acc
  | [], _, _ => rfl
  | fn :: rest, x, acc => by
    cases acc with
    | true =>
      simpa [AnyFilter.traceFoldOr, AnyFilter.applyFoldOr] using
        traceFoldOr_fst rest x true
    | false =>
      simpa [AnyFilter.traceFoldOr, AnyFilter.applyFoldOr, applyTrace_fst fn x] using
        traceFoldOr_fst rest x (fn.apply x)

end

mutual

/-- A call to `apply` invokes at most `numLeaves` leaf predicates. -/
theorem applyTrace_count_le {E : Type} : ∀ (f : AnyFilter E) (x : E),
    (AnyFilter.applyTrace f x).2 ≤ AnyFilter.numLeaves f
  | .pred _, _ => le_refl 1
  | .filt op neg fs _a, x => by
    cases op with
    | Intersection =>
      simpa [AnyFilter.applyTrace, AnyFilter.numLeaves] using
        traceFoldAnd_count_le fs x true
    | Union =>
      simpa [AnyFilter.applyTrace, AnyFilter.numLeaves] using
        traceFoldOr_count_le fs x false

/-- The instrumented `Intersection` reduce invokes at most the leaves of the
child list. -/
theorem traceFoldAnd_count_le {E : Type} : ∀ (fs : List (AnyFilter E)) (x : E) (acc : Bool),
    (AnyFilter.traceFoldAnd fs x acc).2 ≤ AnyFilter.numLeavesList fs
  | [], _, _ => Nat.le_refl 0
  | fn :: rest, x, acc => by
    cases acc with
    | false =>
      have h := traceFoldAnd_count_le rest x false
      simp [AnyFilter.traceFoldAnd, AnyFilter.numLeavesList]
      omega
    | true =>
      have h1 := applyTrace_count_le fn x
      have h2 := traceFoldAnd_count_le rest x (AnyFilter.applyTrace fn x).1
      simp [AnyFilter.traceFoldAnd, AnyFilter.numLeavesList]
      omega

/-- The instrumented `Union` reduce invokes at most the leaves of the child
list. -/
theorem traceFoldOr_count_le {E : Type} : ∀ (fs : List (AnyFilter E)) (x : E) (acc : Bool),
    (AnyFilter.traceFoldOr fs x acc).2 ≤ AnyFilter.numLeavesList fs
  | [], _, _ => Nat.le_refl 0
  | fn :: rest, x, acc => by
    cases acc with
    | true =>
      have h := traceFoldOr_count_le rest x true
      simp [AnyFilter.traceFoldOr, AnyFilter.numLeavesList]
      omega
    | false =>
      have h1 := applyTrace_count_le fn x
      have h2 := traceFoldOr_count_le rest x (AnyFilter.applyTrace fn x).1
      simp [AnyFilter.traceFoldOr, AnyFilter.numLeavesList]
      omega

end

mutual

/-- Rewriting the async flags of a tree does not change what `apply`
returns: no evaluation path reads the flag. -/
theorem apply_mapAsync {E : Type} (b : Bool) : ∀ (f : AnyFilter E) (x : E),
    (AnyFilter.mapAsync b f).apply x = f.apply x
  | .pred _, _ => rfl
  | .filt op neg fs _a, x => by
    cases op <;> cases neg <;>
      simp [AnyFilter.mapAsync, AnyFilter.apply,
        applyFoldAnd_mapAsync b fs x true, applyFoldOr_mapAsync b fs x false]

/-- `applyFoldAnd` is unchanged by rewriting async flags in the children. -/
theorem applyFoldAnd_mapAsync {E : Type} (b : Bool) :
    ∀ (fs : List (AnyFilter E)) (x : E) (acc : Bool),
    AnyFilter.applyFoldAnd (AnyFilter.mapAsyncList b fs) x acc
      = AnyFilter.applyFoldAnd fs x acc
  | [], _, _ => rfl
  | fn :: rest, x, acc => by
    simpa [AnyFilter.mapAsyncList, AnyFilter.applyFoldAnd, apply_mapAsync b fn x] using
      applyFoldAnd_mapAsync b rest x (acc && fn.apply x)

/-- `applyFoldOr` is unchanged by rewriting async flags in the children. -/
theorem applyFoldOr_mapAsync {E : Type} (b : Bool) :
    ∀ (fs : List (AnyFilter E)) (x : E) (acc : Bool),
    AnyFilter.applyFoldOr (AnyFilter.mapAsyncList b fs) x acc
      = AnyFilter.applyFoldOr fs x acc
  | [], _, _ => rfl
  | fn :: rest, x, acc => by
    simpa [AnyFilter.mapAsyncList, AnyFilter.applyFoldOr, apply_mapAsync b fn x] using
      applyFoldOr_mapAsync b rest x (acc || fn.apply x)

end

mutual

/-- On error-free leaves the fallible evaluation never errors: it returns
exactly `ok` of what `apply` computes, so the engine raises nothing of its
own. -/
theorem applyE_liftE {ε E : Type} : ∀ (f : AnyFilter E) (x : E),
    AnyFilterE.applyE (liftE (ε := ε) f) x = Except.ok (f.apply x)
  | .pred _, _ => rfl
  | .filt op neg fs _a, x => by
    cases op <;> cases neg <;>
      simp [liftE, AnyFilterE.applyE, AnyFilter.apply,
        excFoldAnd_liftE fs x true, excFoldOr_liftE fs x false]

/-- Fallible `Intersection` reduce over lifted children is `ok` of the plain
reduce. -/
theorem excFoldAnd_liftE {ε E : Type} : ∀ (fs : List (AnyFilter E)) (x : E) (acc : Bool),
    AnyFilterE.excFoldAnd (liftEList (ε := ε) fs) x acc
      = Except.ok (AnyFilter.applyFoldAnd fs x acc)
  | [], _, _ => rfl
  | fn :: rest, x, acc => by
    cases acc with
    | false =>
      simpa [liftEList, AnyFilterE.excFoldAnd, AnyFilter.applyFoldAnd] using
        excFoldAnd_liftE (ε := ε) rest x false
    | true =>
      simpa [liftEList, AnyFilterE.excFoldAnd, AnyFilter.applyFoldAnd,
        applyE_liftE (ε := ε) fn x] using
        excFoldAnd_liftE (ε := ε) rest x (fn.apply x)

/-- Fallible `Union` reduce over lifted children is `ok` of the plain
reduce. -/
theorem excFoldOr_liftE {ε E : Type} : ∀ (fs : List (AnyFilter E)) (x : E) (acc : Bool),
    AnyFilterE.excFoldOr (liftEList (ε := ε) fs) x acc
      = Except.ok (AnyFilter.applyFoldOr fs x acc)
  | [], _, _ => rfl
  | fn :: rest, x, acc => by
    cases acc with
    | true =>
      simpa [liftEList, AnyFilterE.excFoldOr, AnyFilter.applyFoldOr] using
        excFoldOr_liftE (ε := ε) rest x true
    | false =>
      simpa [liftEList, AnyFilterE.excFoldOr, AnyFilter.applyFoldOr,
        applyE_liftE (ε := ε) fn x] using
        excFoldOr_liftE (ε := ε) rest x (fn.apply x)

end

mutual

/-- Every error coming out of the fallible evaluation was raised, unmodified,
by some leaf predicate of the tree applied to the same element. -/
theorem applyE_error {ε E : Type} : ∀ (g : AnyFilterE ε E) (x : E) (e : ε),
    AnyFilterE.applyE g x = Except.error e → ∃ p, LeafIn p g ∧ p x = Except.error e
  | .pred p, _, _, h => ⟨p, LeafIn.here, h⟩
  | .filt op neg fs _a, x, e, h => by
    cases op with
    | Intersection =>
      rcases hfold : AnyFilterE.excFoldAnd fs x true with ⟨err⟩ | ⟨b⟩
      · obtain ⟨p, f, hmem, hleaf, hp⟩ := excFoldAnd_error fs x true err hfold
        simp only [AnyFilterE.applyE, hfold] at h
        cases h
        exact ⟨p, LeafIn.child hmem hleaf, hp⟩
      · simp only [AnyFilterE.applyE, hfold] at h
        cases h
    | Union =>
      rcases hfold : AnyFilterE.excFoldOr fs x false with ⟨err⟩ | ⟨b⟩
      · obtain ⟨p, f, hmem, hleaf, hp⟩ := excFoldOr_error fs x false err hfold
        simp only [AnyFilterE.applyE, hfold] at h
        cases h
        exact ⟨p, LeafIn.child hmem hleaf, hp⟩
      · simp only [AnyFilterE.applyE, hfold] at h
        cases h

/-- Every error coming out of the fallible `Intersection` reduce was raised
by a leaf of some child in the list. -/
theorem excFoldAnd_error {ε E : Type} : ∀ (fs : List (AnyFilterE ε E)) (x : E) (acc : Bool) (e : ε),
    AnyFilterE.excFoldAnd fs x acc = Except.error e →
      ∃ p f, f ∈ fs ∧ LeafIn p f ∧ p x = Except.error e
  | [], _, _, _, h => by simp [AnyFilterE.excFoldAnd] at h
  | fn :: rest, x, acc, e, h => by
    cases acc with
    | false =>
      rw [AnyFilterE.excFoldAnd, if_neg (by simp)] at h
      obtain ⟨p, f, hmem, hleaf, hp⟩ := excFoldAnd_error rest x false e h
      exact ⟨p, f, List.mem_cons_of_mem fn hmem, hleaf, hp⟩
    | true =>
      rw [AnyFilterE.excFoldAnd, if_pos rfl] at h
      rcases happ : AnyFilterE.applyE fn x with ⟨err⟩ | ⟨b⟩
      · obtain ⟨p, hleaf, hp⟩ := applyE_error fn x err happ
        rw [happ] at h
        cases h
        exact ⟨p, fn, List.mem_cons_self fn rest, hleaf, hp⟩
      · rw [happ] at h
        obtain ⟨p, f, hmem, hleaf, hp⟩ := excFoldAnd_error rest x b e h
        exact ⟨p, f, List.mem_cons_of_mem fn hmem, hleaf, hp⟩

/-- Every error coming out of the fallible `Union` reduce was raised by a
leaf of some child in the list. -/
theorem excFoldOr_error {ε E : Type} : ∀ (fs : List (AnyFilterE ε E)) (x : E) (acc : Bool) (e : ε),
    AnyFilterE.excFoldOr fs x acc = Except.error e →
      ∃ p f, f ∈ fs ∧ LeafIn p f ∧ p x = Except.error e
  | [], _, _, _, h => by simp [AnyFilterE.excFoldOr] at h
  | fn :: rest, x, acc, e, h => by
    cases acc with
    | true =>
      rw [AnyFilterE.excFoldOr, if_pos rfl] at h
      obtain ⟨p, f, hmem, hleaf, hp⟩ := excFoldOr_error rest x true e h
      exact ⟨p, f, List.mem_cons_of_mem fn hmem, hleaf, hp⟩
    | false =>
      rw [AnyFilterE.excFoldOr, if_neg (by simp)] at h
      rcases happ : AnyFilterE.applyE fn x with ⟨err⟩ | ⟨b⟩
      · obtain ⟨p, hleaf, hp⟩ := applyE_error fn x err happ
        rw [happ] at h
        cases h
        exact ⟨p, fn, List.mem_cons_self fn rest, hleaf, hp⟩
      · rw [happ] at h
        obtain ⟨p, f, hmem, hleaf, hp⟩ := excFoldOr_error rest x b e h
        exact ⟨p, f, List.mem_cons_of_mem fn hmem, hleaf, hp⟩

end

end Sequel

open Sequel

/-- C1: `and(f1, f2).apply(x) = f1.apply(x) && f2.apply(x)` and
`or(f1, f2).apply(x) = f1.apply(x) || f2.apply(x)`; with any number of
children the result is the left-to-right fold of `&&` (seed `true`) resp.
`||` (seed `false`); and nesting works compositionally, e.g.
`and(f1, or(f2, not(f3))).apply(x) = f1(x) && (f2(x) || !f3(x))`. -/
theorem C1_compositional_and_or {E : Type} (f1 f2 f3 : AnyFilter E)
    (fs : List (AnyFilter E)) (x : E) :
    (Sequel.and [f1, f2]).apply x = (f1.apply x && f2.apply x)
    ∧ (Sequel.or [f1, f2]).apply x = (f1.apply x || f2.apply x)
    ∧ (Sequel.and fs).apply x = fs.foldl (fun acc f => acc && f.apply x) true
    ∧ (Sequel.or fs).apply x = fs.foldl (fun acc f => acc || f.apply x) false
    ∧ (Sequel.and [f1, Sequel.or [f2, Sequel.not f3]]).apply x
        = (f1.apply x && (f2.apply x || !(f3.apply x))) :=
  ⟨rfl, rfl, applyFoldAnd_eq_foldl fs x true, applyFoldOr_eq_foldl fs x false, rfl⟩

/-- C2: `not(f).apply(x)` is the boolean negation of `f`'s result on `x`,
and double negation cancels: `not(not(f)).apply(x) = f.apply(x)`. -/
theorem C2_negation_semantics {E : Type} (f : AnyFilter E) (x : E) :
    (Sequel.not f).apply x = !(f.apply x)
    ∧ (Sequel.not (Sequel.not f)).apply x = f.apply x :=
  ⟨rfl, Bool.not_not (f.apply x)⟩

/-- C4 counterexample: at the concrete element `0`, `not(and())` evaluates to
`false` (the claim says `true`) and `not(or())` evaluates to `true` (the
claim says `false`): the claimed values are swapped. -/
theorem C4_counterexample :
    (Sequel.not (Sequel.and ([] : List (AnyFilter Nat)))).apply 0 = false
    ∧ (Sequel.not (Sequel.or ([] : List (AnyFilter Nat)))).apply 0 = true :=
  ⟨rfl, rfl⟩

/-- C4 (amended): for every element `x`, `not(and()).apply(x) = false` and
`not(or()).apply(x) = true` — negation applied on top of the empty-children
reduction seed (`true` for Intersection, `false` for Union) inverts it. -/
theorem C4_negated_empty_combinators {E : Type} (x : E) :
    (Sequel.not (Sequel.and ([] : List (AnyFilter E)))).apply x = false
    ∧ (Sequel.not (Sequel.or ([] : List (AnyFilter E)))).apply x = true :=
  ⟨rfl, rfl⟩

/-- C6: `and().apply(x) = true` and `or().apply(x) = false`: a node with
zero children evaluates to the reduction seed of its chain operator. -/
theorem C6_empty_combinator_identities {E : Type} (x : E) :
    (Sequel.and ([] : List (AnyFilter E))).apply x = true
    ∧ (Sequel.or ([] : List (AnyFilter E))).apply x = false :=
  ⟨rfl, rfl⟩

/-- C7: `filter(p).apply(x) = p(x)`: wrapping a predicate in a single-child
Intersection node does not change its result. -/
theorem C7_singleton_wrapper {E : Type} (p : E → Bool) (x : E) :
    (Sequel.filter p).apply x = p x :=
  rfl

/-- C8: De Morgan consistency, `not(and(f1, f2)).apply(x) =
or(not(f1), not(f2)).apply(x)` for all filters `f1`, `f2` and elements `x`. -/
theorem C8_de_morgan {E : Type} (f1 f2 : AnyFilter E) (x : E) :
    (Sequel.not (Sequel.and [f1, f2])).apply x
      = (Sequel.or [Sequel.not f1, Sequel.not f2]).apply x := by
  show (!(f1.apply x && f2.apply x)) = (!(f1.apply x) || !(f2.apply x))
  cases f1.apply x <;> cases f2.apply x <;> rfl

/-- C9: `identity.apply(x) = true` for every element `x`. -/
theorem C9_identity_true {E : Type} (x : E) :
    (Sequel.identity : AnyFilter E).apply x = true :=
  rfl

/-- C3 counterexample: in `and(p1, p2)` with `p1 = (_ => false)`, the call
`apply(0)` performs exactly one leaf-predicate invocation although the tree
contains two leaves: the JavaScript `&&` in the reduce callback
short-circuits, so `p2` is skipped — contradicting "no leaf predicate
invocation is skipped". -/
theorem C3_counterexample :
    (AnyFilter.applyTrace
        (Sequel.and [AnyFilter.pred (fun _ : Nat => false), AnyFilter.pred (fun _ => true)])
        0).2 = 1
    ∧ AnyFilter.numLeaves
        (Sequel.and [AnyFilter.pred (fun _ : Nat => false), AnyFilter.pred (fun _ => true)])
        = 2 :=
  ⟨rfl, rfl⟩

/-- C3 (amended): no caching — the instrumented result agrees with `apply`,
and a duplicated sub-tree is re-evaluated on each occurrence it is reached
(e.g. when `f` evaluates `true`, `and(f, f)` performs exactly twice the leaf
invocations of `f`); but within a call at most `numLeaves` invocations
happen, and leaf predicates can be skipped by the short-circuiting `&&`/`||`
once the accumulator is decided. -/
theorem C3_no_caching {E : Type} (f : AnyFilter E) (x : E) (h : f.apply x = true) :
    (AnyFilter.applyTrace f x).1 = f.apply x
    ∧ (AnyFilter.applyTrace f x).2 ≤ AnyFilter.numLeaves f
    ∧ (AnyFilter.applyTrace (Sequel.and [f, f]) x).2 = 2 * (AnyFilter.applyTrace f x).2 := by
  refine ⟨applyTrace_fst f x, applyTrace_count_le f x, ?_⟩
  have hfst : (AnyFilter.applyTrace f x).1 = true := (applyTrace_fst f x).trans h
  simp [Sequel.and, AnyFilter.applyTrace, AnyFilter.traceFoldAnd, hfst]
  omega

/-- C3 witness: the amended statement holds at the concrete filter
`and(p, p)` with `p = (_ => true)` at element `0`. -/
theorem C3_no_caching_witness :
    (AnyFilter.applyTrace (AnyFilter.pred (fun _ : Nat => true)) 0).1
        = (AnyFilter.pred (fun _ : Nat => true)).apply 0
    ∧ (AnyFilter.applyTrace (AnyFilter.pred (fun _ : Nat => true)) 0).2
        ≤ AnyFilter.numLeaves (AnyFilter.pred (fun _ : Nat => true))
    ∧ (AnyFilter.applyTrace
          (Sequel.and [AnyFilter.pred (fun _ : Nat => true),
            AnyFilter.pred (fun _ : Nat => true)]) 0).2
        = 2 * (AnyFilter.applyTrace (AnyFilter.pred (fun _ : Nat => true)) 0).2 :=
  C3_no_caching (AnyFilter.pred (fun _ : Nat => true)) 0 rfl

/-- C5: `apply` itself never raises — over error-free leaves it returns `ok`
of the plain boolean aggregation — and when a leaf predicate raises during
evaluation, exactly that error propagates out of `apply` unmodified: every
error returned by the fallible evaluation is the error of some leaf
predicate of the tree applied to the same element. -/
theorem C5_error_propagation {ε E : Type} (f : AnyFilter E) (g : AnyFilterE ε E)
    (x : E) (e : ε) :
    AnyFilterE.applyE (Sequel.liftE (ε := ε) f) x = Except.ok (f.apply x)
    ∧ (AnyFilterE.applyE g x = Except.error e →
        ∃ p, LeafIn p g ∧ p x = Except.error e) :=
  ⟨applyE_liftE f x, applyE_error g x e⟩

/-- C5 witness: over the error-free `identity` tree the evaluation returns
`ok true`, and a tree whose single leaf raises `7` at element `0` yields a
leaf of the tree that raised exactly `7`. -/
theorem C5_error_propagation_witness :
    AnyFilterE.applyE (Sequel.liftE (ε := Nat) (Sequel.identity : AnyFilter Nat)) 0
        = Except.ok true
    ∧ ∃ p, LeafIn p
          (AnyFilterE.filt (ε := Nat) (E := Nat) QueryFilterChainOperator.Intersection
            false [AnyFilterE.pred (fun _ => Except.error 7)] false)
        ∧ p 0 = Except.error 7 :=
  ⟨(C5_error_propagation (Sequel.identity : AnyFilter Nat)
      (AnyFilterE.filt QueryFilterChainOperator.Intersection false
        [AnyFilterE.pred (fun _ => Except.error 7)] false) 0 7).1,
   (C5_error_propagation (Sequel.identity : AnyFilter Nat)
      (AnyFilterE.filt QueryFilterChainOperator.Intersection false
        [AnyFilterE.pred (fun _ => Except.error 7)] false) 0 7).2 rfl⟩

/-- C10: the async flag does not influence evaluation. Two trees identical
except in the value of their async flags (they agree after rewriting every
flag to `false`) evaluate identically on every element, and in particular
two nodes differing only in the flag value give the same `apply` result: no
evaluation path reads the flag. -/
theorem C10_async_flag_unread {E : Type} (f g : AnyFilter E)
    (op : QueryFilterChainOperator) (neg : Bool) (fs : List (AnyFilter E))
    (a b : Bool) (x : E)
    (h : AnyFilter.mapAsync false f = AnyFilter.mapAsync false g) :
    f.apply x = g.apply x
    ∧ (AnyFilter.filt op neg fs a).apply x = (AnyFilter.filt op neg fs b).apply x := by
  refine ⟨?_, rfl⟩
  calc f.apply x = (AnyFilter.mapAsync false f).apply x := (apply_mapAsync false f x).symm
    _ = (AnyFilter.mapAsync false g).apply x := by rw [h]
    _ = g.apply x := apply_mapAsync false g x

/-- C10 witness: two empty Intersection nodes differing only in their async
flag evaluate identically at the concrete element `0`. -/
theorem C10_async_flag_unread_witness :
    (AnyFilter.filt (E := Nat) QueryFilterChainOperator.Intersection false [] true).apply 0
      = (AnyFilter.filt (E := Nat) QueryFilterChainOperator.Intersection false [] false).apply 0
    ∧ (AnyFilter.filt (E := Nat) QueryFilterChainOperator.Union true [] true).apply 0
      = (AnyFilter.filt (E := Nat) QueryFilterChainOperator.Union true [] false).apply 0 :=
  ⟨(C10_async_flag_unread
      (AnyFilter.filt QueryFilterChainOperator.Intersection false [] true)
      (AnyFilter.filt QueryFilterChainOperator.Intersection false [] false)
      QueryFilterChainOperator.Intersection false [] true false 0 rfl).1,
   (C10_async_flag_unread
      (AnyFilter.filt (E := Nat) QueryFilterChainOperator.Intersection false [] true)
      (AnyFilter.filt QueryFilterChainOperator.Intersection false [] false)
      QueryFilterChainOperator.Union true [] true false 0 rfl).2⟩
